import Mathlib

/-!
Shallow embedding of `src/Rossler.py`: the Rössler flow velocity field, its
stability matrix, the augmented (state ⊕ tangent) velocity field, and the
`Flow` / `Jacobian` operators built on `scipy.integrate.odeint`.

Real arithmetic is modelled over `ℚ` (the Python code computes with floats;
the claims under study are exact algebraic/structural properties, which we
settle in exact arithmetic).  Vectors are `Fin n → ℚ`, matrices are
Mathlib's `Matrix (Fin 3) (Fin 3) ℚ`.  The external integrator `odeint` is
modelled as an explicit parameter: a function from a right-hand side, an
initial vector and a list of sample times to an optional list of solution
rows (`none` = any runtime failure).  Properties of `odeint` that a claim
needs are stated as an explicit contract (`IntegratorConsistent`).
-/

namespace Rossler

/-- Rössler parameter `a = 0.2` (src/Rossler.py line 7). -/
def a : ℚ := 0.2

/-- Rössler parameter `b = 0.2` (src/Rossler.py line 8). -/
def b : ℚ := 0.2

/-- Rössler parameter `c = 5.7` (src/Rossler.py line 9). -/
def c : ℚ := 5.7

/-- Velocity function for the Rossler flow (src/Rossler.py, `Velocity`).
`ssp = [x, y, z]`; `t` has no effect, kept for integrator compatibility. -/
def Velocity (ssp : Fin 3 → ℚ) (t : ℚ) : Fin 3 → ℚ :=
  let x := ssp 0
  let y := ssp 1
  let z := ssp 2
  ![-y - z, x + a * y, b + z * (x - c)]

/-- Stability matrix for the Rossler flow (src/Rossler.py, `StabilityMatrix`). -/
def StabilityMatrix (ssp : Fin 3 → ℚ) : Matrix (Fin 3) (Fin 3) ℚ :=
  let x := ssp 0
  let z := ssp 2
  !![0, -1, -1; 1, a, 0; z, 0, x - c]

/-- Row-major reshape of a 9-vector into a 3×3 matrix
(numpy `v.reshape((3, 3))`): entry `(i, j)` is component `3*i + j`. -/
def reshape3 (v : Fin 9 → ℚ) : Matrix (Fin 3) (Fin 3) ℚ :=
  fun i j => v ⟨3 * i.val + j.val, by have hi := i.isLt; have hj := j.isLt; omega⟩

/-- Row-major flattening of a 3×3 matrix into a 9-vector
(numpy `np.reshape(M, 9)`): component `k` is entry `(k / 3, k % 3)`. -/
def flatten3 (M : Matrix (Fin 3) (Fin 3) ℚ) : Fin 9 → ℚ :=
  fun k => M ⟨k.val / 3, by have := k.isLt; omega⟩ ⟨k.val % 3, by omega⟩

/-- First three components of an augmented state (`sspJacobian[0:3]`). -/
def firstThree (v : Fin 12 → ℚ) : Fin 3 → ℚ :=
  fun i => v ⟨i.val, by have := i.isLt; omega⟩

/-- Last nine components of an augmented state (`sspJacobian[3:]`). -/
def lastNine (v : Fin 12 → ℚ) : Fin 9 → ℚ :=
  fun k => v ⟨3 + k.val, by have := k.isLt; omega⟩

/-- Velocity function for the Jacobian integration
(src/Rossler.py, `JacobianVelocity`): first 3 components are
`Velocity(ssp, t)`, last 9 are the flattening of
`StabilityMatrix(ssp) · J` where `ssp = v[0:3]` and `J` is the row-major
reshape of `v[3:]`. -/
def JacobianVelocity (v : Fin 12 → ℚ) (t : ℚ) : Fin 12 → ℚ :=
  let ssp := firstThree v
  let J := reshape3 (lastNine v)
  let vel := Velocity ssp t
  let velTangent := StabilityMatrix ssp * J
  fun k =>
    if h : k.val < 3 then vel ⟨k.val, h⟩
    else flatten3 velTangent ⟨k.val - 3, by have := k.isLt; omega⟩

/-- Truncation of a rational toward zero, as Python's `int()` /
old numpy's `int(num)` conversion of the sample count. -/
def ratTrunc (q : ℚ) : ℤ :=
  q.num.tdiv q.den

/-- Model of `np.linspace(start, stop, num)` (endpoint inclusive):
`num < 0` is a numpy error (`none`); `num = 0` gives the empty grid;
`num = 1` gives `[start]`; otherwise `num` equidistant points from
`start` to `stop`. -/
def linspace (start stop : ℚ) (num : ℤ) : Option (List ℚ) :=
  if 0 ≤ num then
    some (List.ofFn fun i : Fin num.toNat =>
      if num ≤ 1 then start
      else start + (i.val : ℚ) * (stop - start) / ((num : ℚ) - 1))
  else none

/-- Type of an `odeint`-style integrator for an `n`-dimensional system:
given a right-hand side `f(v, t)`, an initial vector and a list of sample
times, it returns one solution row per sample time, or `none` on any
runtime failure. -/
def IntegratorT (n : ℕ) : Type :=
  ((Fin n → ℚ) → ℚ → (Fin n → ℚ)) → (Fin n → ℚ) → List ℚ → Option (List (Fin n → ℚ))

/-- Contract satisfied by `scipy.integrate.odeint`, as far as the claims
need it: (1) a successful integration returns exactly one row per
requested sample time; (2) when every requested sample time equals a
single instant `t0`, no integration step is taken and the integrator
returns the initial vector at every sample time, without failing. -/
def IntegratorConsistent {n : ℕ} (I : IntegratorT n) : Prop :=
  (∀ f y0 ts rows, I f y0 ts = some rows → rows.length = ts.length) ∧
  (∀ f y0 t0 ts, (∀ s ∈ ts, s = t0) → I f y0 ts = some (List.replicate ts.length y0))

/-- Degenerate integrator used only to witness that `IntegratorConsistent`
is satisfiable: it reports the initial vector at every sample time. -/
def constIntegrator {n : ℕ} : IntegratorT n :=
  fun _f y0 ts => some (List.replicate ts.length y0)

/-- Lagrangian description of the flow (src/Rossler.py, `Flow`):
integrate `Velocity` from `ssp0` over `[0, deltat]` and read the final
sample.  The integrator (`odeint` in the source) is an explicit
parameter. -/
def Flow (I : IntegratorT 3) (ssp0 : Fin 3 → ℚ) (deltat : ℚ) : Option (Fin 3 → ℚ) := do
  let sspSolution ← I Velocity ssp0 [0, deltat]
  sspSolution.getLast?

/-- Augmented initial condition built by `Jacobian`
(src/Rossler.py lines 116-122): first 3 components are `ssp`, last 9 are
the row-major flattening of the 3×3 identity matrix. -/
def augInit (ssp : Fin 3 → ℚ) : Fin 12 → ℚ :=
  fun k =>
    if h : k.val < 3 then ssp ⟨k.val, h⟩
    else flatten3 1 ⟨k.val - 3, by have := k.isLt; omega⟩

/-- Output time grid used by `Jacobian` (src/Rossler.py lines 124-127):
`Nt = t * 100` samples (converted to an integer count by truncation, as
numpy did), laid out by `np.linspace(0, t, Nt)`. -/
def jacobianGrid (t : ℚ) : Option (List ℚ) :=
  linspace 0 t (ratTrunc (t * 100))

/-- Jacobian of the time-`t` flow map at `ssp`
(src/Rossler.py, `Jacobian`): integrate `JacobianVelocity` from the
augmented initial condition over the output grid, then reshape the
trailing 9 components of the last sample into a 3×3 matrix.  A numpy
failure (negative sample count, indexing into an empty solution) is
`none`. -/
def Jacobian (I : IntegratorT 12) (ssp : Fin 3 → ℚ) (t : ℚ) :
    Option (Matrix (Fin 3) (Fin 3) ℚ) := do
  let tArray ← jacobianGrid t
  let sspJacobianSolution ← I JacobianVelocity (augInit ssp) tArray
  let lastRow ← sspJacobianSolution.getLast?
  pure (reshape3 (lastNine lastRow))

/-! ### Helper lemmas (shared) -/

/-- The degenerate integrator satisfies the `odeint` contract. -/
lemma constIntegrator_consistent (n : ℕ) : IntegratorConsistent (@constIntegrator n) := by
  constructor
  · intro f y0 ts rows h
    simp only [constIntegrator, Option.some.injEq] at h
    subst h
    simp
  · intro f y0 t0 ts hconst
    rfl

/-- The trailing block of the augmented initial condition decodes to the
identity matrix. -/
lemma reshape3_lastNine_augInit (ssp : Fin 3 → ℚ) :
    reshape3 (lastNine (augInit ssp)) = 1 := by
  ext i j
  fin_cases i <;> fin_cases j <;>
    simp [reshape3, lastNine, augInit, flatten3, Matrix.one_apply]

/-! ### Claims -/

/-- C3: for every state `(x, y, z)` and time `t`, `Velocity` returns the
3-vector `(-y - z, x + a*y, b + z*(x - c))` with `a = 0.2`, `b = 0.2`,
`c = 5.7`. -/
theorem velocity_formula (s : Fin 3 → ℚ) (t : ℚ) :
    Velocity s t = ![-(s 1) - s 2, s 0 + a * s 1, b + s 2 * (s 0 - c)] ∧
      a = 0.2 ∧ b = 0.2 ∧ c = 5.7 :=
  ⟨rfl, rfl, rfl, rfl⟩

/-- C8: `Velocity` and `JacobianVelocity` are independent of their time
argument. -/
theorem autonomous (s : Fin 3 → ℚ) (v : Fin 12 → ℚ) (t1 t2 : ℚ) :
    Velocity s t1 = Velocity s t2 ∧ JacobianVelocity v t1 = JacobianVelocity v t2 :=
  ⟨rfl, rfl⟩

/-- C2: `StabilityMatrix` returns exactly `[[0,-1,-1],[1,a,0],[z,0,x-c]]`,
and this matrix is the analytic Jacobian of `Velocity`: perturbing state
component `j` by any `dh` changes component `i` of the velocity by exactly
`StabilityMatrix s i j * dh` (each component of `Velocity` is affine in
each single state coordinate, so this exact slope is the partial
derivative). -/
theorem stability_matrix_is_jacobian (s : Fin 3 → ℚ) :
    StabilityMatrix s = !![0, -1, -1; 1, a, 0; s 2, 0, s 0 - c] ∧
      ∀ (i j : Fin 3) (dh : ℚ) (t : ℚ),
        Velocity (Function.update s j (s j + dh)) t i =
          Velocity s t i + StabilityMatrix s i j * dh := by
  refine ⟨rfl, ?_⟩
  intro i j dh t
  fin_cases i <;> fin_cases j <;>
    simp [Velocity, StabilityMatrix, Function.update, Fin.ext_iff] <;> ring

/-- C1: `JacobianVelocity v t` has first 3 components equal to
`Velocity (v[0:3], t)` and last 9 components equal to the row-major
flattening of `StabilityMatrix (v[0:3]) · M`, where `M` is the row-major
reshape of `v[3:12]`. -/
theorem jacobian_velocity_structure (v : Fin 12 → ℚ) (t : ℚ) :
    (∀ i : Fin 3, JacobianVelocity v t ⟨i.val, by have := i.isLt; omega⟩ =
        Velocity (firstThree v) t i) ∧
    (∀ k : Fin 9, JacobianVelocity v t ⟨3 + k.val, by have := k.isLt; omega⟩ =
        flatten3 (StabilityMatrix (firstThree v) * reshape3 (lastNine v)) k) := by
  constructor
  · intro i
    have hi := i.isLt
    simp only [JacobianVelocity]
    rw [dif_pos hi]
  · intro k
    have hk := k.isLt
    simp only [JacobianVelocity]
    rw [dif_neg (by omega)]
    have h3 : 3 + k.val - 3 = k.val := by omega
    simp only [h3, Fin.eta]

/-- C10: flatten/reshape are mutually inverse row-major codecs, and the
trailing block of `Jacobian`'s augmented initial condition decodes (as
`JacobianVelocity` decodes it) to the identity matrix. -/
theorem reshape_flatten_roundtrip :
    (∀ v : Fin 9 → ℚ, flatten3 (reshape3 v) = v) ∧
    (∀ M : Matrix (Fin 3) (Fin 3) ℚ, reshape3 (flatten3 M) = M) ∧
    (∀ ssp : Fin 3 → ℚ, reshape3 (lastNine (augInit ssp)) = 1) := by
  refine ⟨?_, ?_, fun ssp => reshape3_lastNine_augInit ssp⟩
  · intro v
    funext k
    fin_cases k <;> rfl
  · intro M
    ext i j
    fin_cases i <;> fin_cases j <;> rfl

/-- C6: zero-time flow is the identity: `Flow(s, 0)` returns `s` exactly,
for every integrator satisfying the `odeint` contract. -/
theorem flow_zero_identity (I : IntegratorT 3) (hI : IntegratorConsistent I) (s : Fin 3 → ℚ) :
    Flow I s 0 = some s := by
  have h := hI.2 Velocity s 0 [0, 0] (by
    intro x hx
    simp only [List.mem_cons, List.not_mem_nil, or_false] at hx
    rcases hx with hx | hx <;> exact hx)
  simp only [List.length_cons, List.length_nil] at h
  simp [Flow, h, List.replicate, List.getLast?]

/-- Witness for C6: the zero-time flow at `(1, 2, 3)` under the degenerate
integrator. -/
theorem flow_zero_identity_witness :
    Flow constIntegrator ![1, 2, 3] 0 = some ![1, 2, 3] :=
  flow_zero_identity constIntegrator (constIntegrator_consistent 3) ![1, 2, 3]

/-- C5: for every `t ≤ 0`, `Jacobian` fails (returns `none`) instead of a
matrix: the sample count `trunc(t * 100)` is nonpositive, so numpy either
rejects the negative count or produces an empty solution that the final
indexing step cannot read. -/
theorem jacobian_nonpositive_time_fails (I : IntegratorT 12) (hI : IntegratorConsistent I)
    (s : Fin 3 → ℚ) (t : ℚ) (ht : t ≤ 0) : Jacobian I s t = none := by
  have hq : t * 100 ≤ 0 := by nlinarith
  have hnum : ratTrunc (t * 100) ≤ 0 := by
    have hn : (t * 100).num ≤ 0 := Rat.num_nonpos.mpr hq
    have hd : (0 : ℤ) < ((t * 100).den : ℤ) := by exact_mod_cast (t * 100).den_pos
    have h1 : 0 ≤ (-(t * 100).num).tdiv ((t * 100).den : ℤ) :=
      Int.tdiv_nonneg (by omega) (le_of_lt hd)
    rw [Int.neg_tdiv] at h1
    unfold ratTrunc
    omega
  rcases lt_or_eq_of_le hnum with hlt | heq
  · have hg : jacobianGrid t = none := by
      simp [jacobianGrid, linspace, not_le.mpr hlt]
    simp [Jacobian, hg]
  · have hg : jacobianGrid t = some [] := by
      simp [jacobianGrid, linspace, heq]
    cases hrows : I JacobianVelocity (augInit s) [] with
    | none => simp [Jacobian, hg, hrows]
    | some rows =>
      have hlen : rows.length = 0 := by simpa using hI.1 _ _ _ _ hrows
      have hnil : rows = [] := List.length_eq_zero.mp hlen
      subst hnil
      simp [Jacobian, hg, hrows]

/-- Witness for C5: `Jacobian` at `t = 0` fails under the degenerate
integrator. -/
theorem jacobian_nonpositive_time_fails_witness :
    Jacobian constIntegrator ![0, 0, 0] 0 = none :=
  jacobian_nonpositive_time_fails constIntegrator (constIntegrator_consistent 12)
    ![0, 0, 0] 0 le_rfl

/-- C4: a successful `Jacobian I ssp t = some M` factors exactly through the
claimed procedure: the integrator is run on `JacobianVelocity` from an
augmented initial condition whose first 3 components are `ssp` and whose
trailing 9 are the row-major flattening of the identity, and `M` is the
row-major reshape of the trailing 9 components of the last sample. -/
theorem jacobian_procedure (I : IntegratorT 12) (ssp : Fin 3 → ℚ) (t : ℚ)
    (M : Matrix (Fin 3) (Fin 3) ℚ) (hM : Jacobian I ssp t = some M) :
    (∀ i : Fin 3, augInit ssp ⟨i.val, by have := i.isLt; omega⟩ = ssp i) ∧
    (∀ k : Fin 9, augInit ssp ⟨3 + k.val, by have := k.isLt; omega⟩ = flatten3 1 k) ∧
    ∃ grid rows lastRow,
      jacobianGrid t = some grid ∧
      I JacobianVelocity (augInit ssp) grid = some rows ∧
      rows.getLast? = some lastRow ∧
      ∀ i j : Fin 3, M i j =
        lastRow ⟨3 + (3 * i.val + j.val), by have := i.isLt; have := j.isLt; omega⟩ := by
  refine ⟨?_, ?_, ?_⟩
  · intro i
    have := i.isLt
    simp [augInit, dif_pos this]
  · intro k
    have hk := k.isLt
    simp only [augInit]
    rw [dif_neg (by omega)]
    have h3 : 3 + k.val - 3 = k.val := by omega
    simp only [h3, Fin.eta]
  · unfold Jacobian at hM
    cases hg : jacobianGrid t with
    | none => rw [hg] at hM; simp at hM
    | some grid =>
      rw [hg] at hM
      simp only [Option.bind_eq_bind, Option.some_bind] at hM
      cases hr : I JacobianVelocity (augInit ssp) grid with
      | none => rw [hr] at hM; simp at hM
      | some rows =>
        rw [hr] at hM
        simp only [Option.some_bind] at hM
        cases hl : rows.getLast? with
        | none => rw [hl] at hM; simp at hM
        | some lastRow =>
          rw [hl] at hM
          simp only [Option.some_bind, Option.pure_def, Option.some.injEq] at hM
          refine ⟨grid, rows, lastRow, rfl, hr, hl, ?_⟩
          intro i j
          rw [← hM]
          rfl

/-- The output grid for `t = 1/100` is the single point `[0]`:
`trunc(1/100 * 100) = 1` and a one-point linspace holds only the start. -/
lemma jacobianGrid_centi : jacobianGrid (1/100) = some [0] := by
  have h2 : ((1 : ℚ)/100 * 100) = 1 := by norm_num
  have hrt : ratTrunc ((1 : ℚ)/100 * 100) = 1 := by
    rw [ratTrunc, h2]
    rfl
  unfold jacobianGrid
  rw [hrt]
  simp only [linspace]
  rw [if_pos (by omega)]
  rfl

/-- Concrete run of `Jacobian` under the degenerate integrator at
`t = 1/100`: the single-sample solution reports the augmented initial
condition, whose trailing block decodes to the identity matrix. -/
lemma jacobian_const_eval :
    Jacobian constIntegrator ![1, 2, 3] (1/100) = some 1 := by
  simp only [Jacobian, Option.bind_eq_bind]
  rw [jacobianGrid_centi]
  simp [constIntegrator, List.replicate, List.getLast?, reshape3_lastNine_augInit]

/-- Witness for C4: the procedure decomposition at `ssp = (1, 2, 3)`,
`t = 1/100` under the degenerate integrator. -/
theorem jacobian_procedure_witness :
    (∀ i : Fin 3, augInit ![1, 2, 3] ⟨i.val, by have := i.isLt; omega⟩ =
        (![1, 2, 3] : Fin 3 → ℚ) i) ∧
    (∀ k : Fin 9, augInit ![1, 2, 3] ⟨3 + k.val, by have := k.isLt; omega⟩ = flatten3 1 k) ∧
    ∃ grid rows lastRow,
      jacobianGrid (1/100) = some grid ∧
      constIntegrator JacobianVelocity (augInit ![1, 2, 3]) grid = some rows ∧
      rows.getLast? = some lastRow ∧
      ∀ i j : Fin 3, (1 : Matrix (Fin 3) (Fin 3) ℚ) i j =
        lastRow ⟨3 + (3 * i.val + j.val), by have := i.isLt; have := j.isLt; omega⟩ :=
  jacobian_procedure constIntegrator ![1, 2, 3] (1/100) 1 jacobian_const_eval

/-- C7 as amended: when the truncated sample count `trunc(t * 100)` is at
least 2, the grid spans `[0, t]` with `trunc(t * 100)` samples (at least 2)
and its last element equals exactly `t`.  The source enforces no 2-point
minimum, so this holds only under that sample-count hypothesis. -/
theorem grid_spans_when_enough_samples (t : ℚ) (h2 : 2 ≤ ratTrunc (t * 100)) :
    ∃ g, jacobianGrid t = some g ∧
      g.length = (ratTrunc (t * 100)).toNat ∧
      2 ≤ g.length ∧ g.head? = some 0 ∧ g.getLast? = some t := by
  have h0 : (0 : ℤ) ≤ ratTrunc (t * 100) := by omega
  have hq2 : (2 : ℚ) ≤ (ratTrunc (t * 100) : ℚ) := by exact_mod_cast h2
  have hd : ((ratTrunc (t * 100) : ℚ) - 1) ≠ 0 := by linarith
  have hg : jacobianGrid t = some (List.ofFn fun i : Fin (ratTrunc (t * 100)).toNat =>
      if ratTrunc (t * 100) ≤ 1 then 0
      else 0 + (i.val : ℚ) * (t - 0) / ((ratTrunc (t * 100) : ℚ) - 1)) := by
    unfold jacobianGrid linspace
    rw [if_pos h0]
  refine ⟨_, hg, ?_, ?_, ?_, ?_⟩
  · simp [List.length_ofFn]
  · simp only [List.length_ofFn]
    omega
  · rw [List.head?_eq_getElem?,
      List.getElem?_eq_getElem (by simp only [List.length_ofFn]; omega), List.getElem_ofFn]
    rw [if_neg (by omega)]
    norm_num
  · rw [List.getLast?_eq_getElem?, List.length_ofFn,
      List.getElem?_eq_getElem (by simp only [List.length_ofFn]; omega), List.getElem_ofFn]
    rw [if_neg (by omega)]
    have hnat : ((((ratTrunc (t * 100)).toNat - 1 : ℕ)) : ℚ) = (ratTrunc (t * 100) : ℚ) - 1 := by
      have h1 : (1 : ℕ) ≤ (ratTrunc (t * 100)).toNat := by omega
      push_cast [h1]
      have : ((ratTrunc (t * 100)).toNat : ℚ) = ((ratTrunc (t * 100) : ℤ) : ℚ) := by
        exact_mod_cast congrArg (fun z : ℤ => (z : ℚ)) (Int.toNat_of_nonneg h0)
      rw [this]
    simp only [Fin.val_mk, hnat]
    rw [sub_zero, zero_add, mul_comm, mul_div_assoc, div_self hd, mul_one]

/-- Witness for the amended C7: at `t = 1/50` the grid has exactly 2
samples, starts at 0 and ends exactly at `1/50`. -/
theorem grid_spans_witness :
    ∃ g, jacobianGrid (1/50) = some g ∧
      g.length = (ratTrunc ((1 : ℚ)/50 * 100)).toNat ∧
      2 ≤ g.length ∧ g.head? = some 0 ∧ g.getLast? = some (1/50) :=
  grid_spans_when_enough_samples (1/50) (by
    rw [show ((1 : ℚ)/50 * 100) = 2 by norm_num, ratTrunc]
    decide)

/-- Counterexample to C7 as stated: `t = 1/100 > 0`, yet the grid is the
single point `[0]` — fewer than 2 samples, and its last element is `0`,
not `t`. -/
theorem grid_min_points_counterexample :
    (0 : ℚ) < 1/100 ∧ jacobianGrid (1/100) = some [0] ∧
      ([(0 : ℚ)].length = 1) ∧ ([(0 : ℚ)].getLast? = some 0) ∧ ((0 : ℚ) ≠ 1/100) :=
  ⟨by norm_num, jacobianGrid_centi, rfl, rfl, by norm_num⟩

/-- C9: the constants hold their initial values `a = 0.2`, `b = 0.2`,
`c = 5.7`, and every operation is a pure function of its explicit inputs
(the integrator included, for the two integrating operations): calls with
equal inputs return equal results. -/
theorem constants_fixed_and_pure :
    (a = 0.2 ∧ b = 0.2 ∧ c = 5.7) ∧
    (∀ s s' t t', s = s' → t = t' → Velocity s t = Velocity s' t') ∧
    (∀ (I I' : IntegratorT 3) s s' d d',
      I = I' → s = s' → d = d' → Flow I s d = Flow I' s' d') ∧
    (∀ s s', s = s' → StabilityMatrix s = StabilityMatrix s') ∧
    (∀ v v' t t', v = v' → t = t' → JacobianVelocity v t = JacobianVelocity v' t') ∧
    (∀ (I I' : IntegratorT 12) s s' t t',
      I = I' → s = s' → t = t' → Jacobian I s t = Jacobian I' s' t') := by
  refine ⟨⟨rfl, rfl, rfl⟩, ?_, ?_, ?_, ?_, ?_⟩ <;> intros <;> subst_vars <;> rfl

/-- Witness for C9: two identical `Flow` calls agree. -/
theorem constants_fixed_and_pure_witness :
    Flow constIntegrator ![1, 2, 3] 1 = Flow constIntegrator ![1, 2, 3] 1 :=
  constants_fixed_and_pure.2.2.1 constIntegrator constIntegrator
    ![1, 2, 3] ![1, 2, 3] 1 1 rfl rfl rfl

end Rossler
